import Mathlib

/-
Verification development for the Hungry-Games-26 Telegram bot (src/Main.py).

The core of the program is a per-team game state machine: teams register,
submit answer codes, request hints, report locations, and an admin can force
the current question index.  This file embeds that core shallowly:

* Python ints are modelled as `Int`, Python floats that hold game scores and
  the hint penalty as `Rat` (the values the game manipulates - sums of
  `max 0 (1 - k * 0.5)` - are exact in binary floating point, so `Rat` is a
  faithful model of the arithmetic the claims are about);
* the handlers (`answer`, `hint`, `register`, `force`, `on_location`,
  `scoreboard`) become pure functions from the team record / store to the
  updated record / store plus an outcome descriptor; a handler that returns
  early (or dies in an uncaught exception, as `get_q` does via
  `StopIteration`) before mutating the record is modelled by returning the
  input record unchanged together with the corresponding failure outcome;
* the store (a Python dict keyed by team name, insertion ordered) is a list
  of team records, with dict update-in-place / append semantics;
* the floating-point haversine comparison inside `within_geofence` is the
  only numerics the embedding abstracts: it is passed in as a boolean
  predicate parameter `hav` on the geofence record and the coordinates, so
  every theorem quantifying over `hav` holds in particular for the real
  haversine test.
-/

/-- The `geofence` dict of a question: `{"lat": .., "lon": .., "radius_m": ..}`. -/
structure Geofence where
  lat : Rat
  lon : Rat
  radius_m : Rat
deriving DecidableEq, Repr

/-- One entry of `QUESTIONS` in Main.py. -/
structure Question where
  id : Int
  title : String
  prompt : String
  answer_code : String
  hints : List String
  geofence : Option Geofence
deriving DecidableEq, Repr

/-- The literal first question of the `QUESTIONS` list. -/
def question1 : Question :=
  { id := 1
    title := "Civic District — Old Supreme Court"
    prompt := "Find the bronze statue of X. Submit the 6-letter password under the emblem."
    answer_code := "MERLION"
    hints := ["It is near the steps facing the Padang.",
              "Look beneath the coat of arms plate."]
    -- 1.29027 and 103.8515, written as explicit fractions
    geofence := some { lat := mkRat 129027 100000, lon := mkRat 1038515 10000,
                       radius_m := 120 } }

/-- The padding question appended by the `while len(QUESTIONS) < 10` loop for
position `i`. -/
def padQuestion (i : Nat) : Question :=
  { id := (i : Int)
    title := "Spot #" ++ toString i
    prompt := "Go to location #" ++ toString i ++ " and submit the on-site code."
    answer_code := "CODE" ++ toString i
    hints := ["Check the signboard.", "Try the ticket counter area."]
    geofence := none }

/-- The `while len(QUESTIONS) < 10` padding loop, with explicit fuel (the loop
runs at most 10 times starting from a non-empty list). -/
def padQuestions : Nat → List Question → List Question
  | 0, qs => qs
  | fuel + 1, qs =>
      if qs.length < 10 then padQuestions fuel (qs ++ [padQuestion (qs.length + 1)])
      else qs

/-- `QUESTIONS` after module load: the literal list (one real question) padded
to exactly 10 entries. -/
def QUESTIONS : List Question := padQuestions 10 [question1]

/-- Environment-derived configuration constants of Main.py.  Defaults are the
fallbacks used when the environment variables are unset:
`ATTEMPTS_PER_Q = 3`, `HINT_PENALTY = 0.5`, `USE_GEOFENCE = false`. -/
structure Config where
  attemptsPerQ : Int := 3
  hintPenalty : Rat := 1/2
  useGeofence : Bool := false
deriving DecidableEq, Repr

/-- The default configuration. -/
def cfg0 : Config := {}

/-- Python `str.strip()`: drop whitespace from both ends.  (Structural over
the character list; Lean's own `String.trim` recurses on byte positions,
which the kernel cannot evaluate.) -/
def pyStrip (s : String) : String :=
  ⟨(((s.data.dropWhile Char.isWhitespace).reverse.dropWhile Char.isWhitespace).reverse)⟩

/-- Python `str.upper()` on the ASCII strings this program compares.
(Structural over the character list for the same reason as `pyStrip`.) -/
def pyUpper (s : String) : String :=
  ⟨s.data.map Char.toUpper⟩

/-- `get_q(i)`: `next(q for q in QUESTIONS if q["id"] == i)`.  A missing id
makes the generator raise `StopIteration`; that failure is `none` here. -/
def get_q (i : Int) : Option Question :=
  QUESTIONS.find? (fun q => q.id == i)

/-- The floating-point haversine acceptance test of `within_geofence`
(`2*R*asin(sqrt(a)) <= radius_m`), abstracted as a predicate on the geofence
record and the reported latitude/longitude. -/
abbrev Hav := Geofence → Rat → Rat → Bool

/-- `within_geofence(q, lat, lon)`: `True` unless geofencing is globally
enabled and the question carries a geofence, in which case the haversine
test decides. -/
def within_geofence (cfg : Config) (hav : Hav) (q : Question) (lat lon : Rat) : Bool :=
  match q.geofence with
  | none => true
  | some g => if cfg.useGeofence then hav g lat lon else true

/-- A `last_location` value: `{"lat": .., "lon": .., "ts": ..}`. -/
structure Location where
  lat : Rat
  lon : Rat
  ts : Int
deriving DecidableEq, Repr

/-- One element of `TeamState.history`:
`{"q": .., "correct": .., "points": .., "attempts": .., "hints": ..}`. -/
structure HistoryEntry where
  q : Int
  correct : Bool
  points : Rat
  attempts : Int
  hints : Int
deriving DecidableEq, Repr

/-- The `TeamState` dataclass. -/
structure TeamState where
  team_name : String
  user_id : Int
  current_q : Int
  score : Rat
  attempts_left : Int
  hints_used_current_q : Int
  history : List HistoryEntry
  last_location : Option Location
deriving DecidableEq, Repr

/-- `TeamState(team_name=.., user_id=..)` with the dataclass defaults
(`current_q=1`, `score=0.0`, `attempts_left=ATTEMPTS_PER_Q`,
`hints_used_current_q=0`, `history=[]`, `last_location=None`). -/
def TeamState.fresh (cfg : Config) (team_name : String) (user_id : Int) : TeamState :=
  { team_name := team_name
    user_id := user_id
    current_q := 1
    score := 0
    attempts_left := cfg.attemptsPerQ
    hints_used_current_q := 0
    history := []
    last_location := none }

/-- Outcome of the `/answer` handler, one constructor per reply path.
`noQuestion` is the uncaught `StopIteration` escaping from `get_q` (the
handler dies before touching the record). -/
inductive AnswerResult where
  | noQuestion
  | outOfRange
  | correct (points : Rat) (finishedGame : Bool)
  | incorrectRetry (attempts_left : Int)
  | exhaustedAdvance
  | exhaustedGameOver
deriving DecidableEq, Repr

/-- Whether an answer outcome is the accepted-correct path. -/
def AnswerResult.isCorrect : AnswerResult → Bool
  | .correct _ _ => true
  | _ => false

/-- The geofence gate at the top of `/answer`:
`team.last_location and not within_geofence(q, ..)`. -/
def geo_blocked (cfg : Config) (hav : Hav) (q : Question) (t : TeamState) : Bool :=
  match t.last_location with
  | none => false
  | some loc => !within_geofence cfg hav q loc.lat loc.lon

/-- The `/answer` handler on one team record.  `raw` is
`" ".join(context.args)`; the handler strips and upcases it.  Returns the
record as left in the store plus the reply outcome; outcomes that reply (or
raise) before any mutation return the input record unchanged. -/
def answer (cfg : Config) (hav : Hav) (t : TeamState) (raw : String) :
    TeamState × AnswerResult :=
  let code := pyUpper (pyStrip raw)
  match get_q t.current_q with
  | none => (t, .noQuestion)
  | some q =>
    if geo_blocked cfg hav q t then
      (t, .outOfRange)
    else if code == pyUpper q.answer_code then
      let points := max 0 (1 - (t.hints_used_current_q : Rat) * cfg.hintPenalty)
      let t' : TeamState :=
        { t with
          score := t.score + points
          history := t.history ++
            [{ q := t.current_q, correct := true, points := points,
               attempts := cfg.attemptsPerQ - t.attempts_left + 1,
               hints := t.hints_used_current_q }]
          current_q := t.current_q + 1
          attempts_left := cfg.attemptsPerQ
          hints_used_current_q := 0 }
      (t', .correct points (decide ((QUESTIONS.length : Int) < t'.current_q)))
    else
      let t1 : TeamState := { t with attempts_left := t.attempts_left - 1 }
      if t1.attempts_left ≤ 0 then
        let t2 : TeamState :=
          { t1 with
            history := t1.history ++
              [{ q := t1.current_q, correct := false, points := 0,
                 attempts := cfg.attemptsPerQ,
                 hints := t1.hints_used_current_q }]
            current_q := t1.current_q + 1
            attempts_left := cfg.attemptsPerQ
            hints_used_current_q := 0 }
        (t2, if t2.current_q ≤ (QUESTIONS.length : Int) then .exhaustedAdvance
             else .exhaustedGameOver)
      else
        (t1, .incorrectRetry t1.attempts_left)

/-- Outcome of the `/hint` handler.  `noQuestion` is again the uncaught
`StopIteration` from `get_q`; `indexErr` the (unreachable for well-formed
records) `IndexError` from a negative hint index falling off the list. -/
inductive HintResult where
  | noQuestion
  | noMoreHints
  | indexErr
  | granted (text : String)
deriving DecidableEq, Repr

/-- Python list indexing `l[i]` for possibly negative `i` (`none` =
`IndexError`). -/
def pyIndex (l : List String) (i : Int) : Option String :=
  let j := if i < 0 then (l.length : Int) + i else i
  if 0 ≤ j then l.get? j.toNat else none

/-- The `/hint` handler on one team record. -/
def hint (t : TeamState) : TeamState × HintResult :=
  match get_q t.current_q with
  | none => (t, .noQuestion)
  | some q =>
    let idx := t.hints_used_current_q
    if (q.hints.length : Int) ≤ idx then
      (t, .noMoreHints)
    else
      let t' : TeamState := { t with hints_used_current_q := t.hints_used_current_q + 1 }
      match pyIndex q.hints idx with
      | none => (t', .indexErr)
      | some s => (t', .granted s)

/-- The location message handler: overwrite `last_location`. -/
def on_location (t : TeamState) (loc : Location) : TeamState :=
  { t with last_location := some loc }

/-- The `Store`: a Python dict from team name to `TeamState`, insertion
ordered.  The dict key of every entry is its own `team_name` (that is how
`upsert` writes), so the store is just the ordered list of records. -/
abbrev Store := List TeamState

/-- `STORE.get(team)`: dict lookup by team name. -/
def Store.get (s : Store) (name : String) : Option TeamState :=
  s.find? (fun t => t.team_name == name)

/-- `STORE.upsert(team)`: `self.data[team.team_name] = team`.  An existing key
keeps its position and gets the new value; a new key is appended. -/
def Store.upsert (s : Store) (u : TeamState) : Store :=
  if s.any (fun v => v.team_name == u.team_name) then
    s.map (fun v => if v.team_name == u.team_name then u else v)
  else
    s ++ [u]

/-- `_require_team`: the first record in insertion order whose `user_id`
matches the sender. -/
def require_team (s : Store) (uid : Int) : Option TeamState :=
  s.find? (fun t => t.user_id == uid)

/-- Outcome of `/register`. -/
inductive RegisterResult where
  | nameTaken
  | registered (t : TeamState)
deriving DecidableEq, Repr

/-- The `/register` handler.  `raw` is `" ".join(context.args)`; the handler
strips it and refuses a taken name. -/
def register (cfg : Config) (s : Store) (raw : String) (uid : Int) :
    Store × RegisterResult :=
  let team_name := pyStrip raw
  match s.get team_name with
  | some _ => (s, .nameTaken)
  | none =>
    let t := TeamState.fresh cfg team_name uid
    (s.upsert t, .registered t)

/-- Outcome of the admin `/force` handler. -/
inductive ForceResult where
  | teamNotFound
  | forced (q : Int)
deriving DecidableEq, Repr

/-- The admin `/force <TEAM_NAME> <Q_NUMBER>` handler: clamp the target into
`[1, len(QUESTIONS)]`, reset attempts and hints, keep everything else. -/
def force (cfg : Config) (s : Store) (name : String) (qn : Int) :
    Store × ForceResult :=
  match s.get name with
  | none => (s, .teamNotFound)
  | some t =>
    let t' : TeamState :=
      { t with
        current_q := max 1 (min qn (QUESTIONS.length : Int))
        attempts_left := cfg.attemptsPerQ
        hints_used_current_q := 0 }
    (s.upsert t', .forced t'.current_q)

/-- The `sorted` key of `/scoreboard` as an ordering relation:
`key=lambda t: (-t.score, t.current_q)` compared lexicographically
ascending, as Python compares tuples. -/
def sbLE (a b : TeamState) : Prop :=
  -a.score < -b.score ∨ (-a.score = -b.score ∧ a.current_q ≤ b.current_q)

instance : DecidableRel sbLE := fun a b => by
  unfold sbLE; infer_instance

instance : IsTotal TeamState sbLE :=
  ⟨fun a b => by
    unfold sbLE
    rcases lt_trichotomy (-a.score) (-b.score) with h | h | h
    · exact Or.inl (Or.inl h)
    · rcases le_total a.current_q b.current_q with h2 | h2
      · exact Or.inl (Or.inr ⟨h, h2⟩)
      · exact Or.inr (Or.inr ⟨h.symm, h2⟩)
    · exact Or.inr (Or.inl h)⟩

instance : IsTrans TeamState sbLE :=
  ⟨fun a b c hab hbc => by
    unfold sbLE at *
    rcases hab with h1 | ⟨h1, h1'⟩ <;> rcases hbc with h2 | ⟨h2, h2'⟩
    · exact Or.inl (h1.trans h2)
    · exact Or.inl (h2 ▸ h1)
    · exact Or.inl (h1 ▸ h2)
    · exact Or.inr ⟨h1.trans h2, h1'.trans h2'⟩⟩

/-- `/scoreboard`: `sorted(STORE.data.values(), key=lambda t: (-t.score,
t.current_q))`.  Python's sort is stable, and a stable sort by a total
preorder has a unique result, so the stable `insertionSort` is a faithful
model. -/
def scoreboard (s : Store) : List TeamState :=
  s.insertionSort sbLE

/-- One inbound update relevant to the game state, as dispatched by the
Telegram handlers: `/register`, `/answer`, `/hint`, a location message, and
the admin `/force`. -/
inductive Event where
  | registerE (raw : String) (uid : Int)
  | answerE (uid : Int) (raw : String)
  | hintE (uid : Int)
  | locE (uid : Int) (loc : Location)
  | forceE (name : String) (qn : Int)
deriving DecidableEq, Repr

/-- Whether an event is the admin `/force` override. -/
def Event.isForce : Event → Bool
  | .forceE _ _ => true
  | _ => false

/-- One dispatch round: resolve the team (owner-keyed commands go through
`_require_team`, an unresolved owner just gets the register prompt) and let
the handler's final record be upserted, exactly as the in-place dict
mutation plus `STORE.upsert(team)` leaves the store. -/
def step (cfg : Config) (hav : Hav) (s : Store) : Event → Store
  | .registerE raw uid => (register cfg s raw uid).1
  | .answerE uid raw =>
    match require_team s uid with
    | none => s
    | some t => s.upsert (answer cfg hav t raw).1
  | .hintE uid =>
    match require_team s uid with
    | none => s
    | some t => s.upsert (hint t).1
  | .locE uid loc =>
    match require_team s uid with
    | none => s
    | some t => s.upsert (on_location t loc)
  | .forceE name qn => (force cfg s name qn).1

/-- The store reached from an empty state file by a sequence of updates. -/
def runEvents (cfg : Config) (hav : Hav) (es : List Event) : Store :=
  es.foldl (step cfg hav) []

/-- A haversine stand-in that accepts everything (its value is irrelevant to
the theorems below, which either quantify over `hav` or hit paths that never
consult it). -/
def hav0 : Hav := fun _ _ _ => true

/-- The padded catalog has exactly 10 questions. -/
theorem QUESTIONS_length : (QUESTIONS.length : Int) = 10 := by decide

/-- Every catalog id is at most 10. -/
theorem QUESTIONS_id_le : ∀ q ∈ QUESTIONS, q.id ≤ 10 := by decide

/-- Past the end of the catalog, `get_q` finds nothing (the Python generator
raises `StopIteration`). -/
theorem get_q_none {i : Int} (h : (QUESTIONS.length : Int) < i) : get_q i = none := by
  rw [QUESTIONS_length] at h
  unfold get_q
  rw [List.find?_eq_none]
  intro q hq
  have := QUESTIONS_id_le q hq
  simp only [beq_iff_eq]
  omega

/-- Inside `[1, len(QUESTIONS)]`, `get_q` always finds a question. -/
theorem get_q_isSome {i : Int} (h1 : 1 ≤ i) (h2 : i ≤ (QUESTIONS.length : Int)) :
    (get_q i).isSome := by
  rw [QUESTIONS_length] at h2
  interval_cases i <;> decide

/-- A record returned by `Store.get name` has that name as its key. -/
theorem Store.name_of_get {s : Store} {name : String} {t : TeamState}
    (h : s.get name = some t) : t.team_name = name := by
  simpa using List.find?_some h

/-- A record returned by `Store.get` is a member of the store. -/
theorem Store.mem_of_get {s : Store} {name : String} {t : TeamState}
    (h : s.get name = some t) : t ∈ s :=
  List.mem_of_find?_eq_some h

/-- `find?` on a cons whose head satisfies the predicate. -/
theorem find?_cons_true {α : Type} (p : α → Bool) (a : α) (l : List α)
    (h : p a = true) : (a :: l).find? p = some a := by
  simp [List.find?, h]

/-- `find?` on a cons whose head fails the predicate. -/
theorem find?_cons_false {α : Type} (p : α → Bool) (a : α) (l : List α)
    (h : p a = false) : (a :: l).find? p = l.find? p := by
  simp [List.find?, h]

/-- Replacing, in a list that contains a record keyed `name`, every record
keyed `u.team_name = name` by `u` makes `u` the first record keyed `name`. -/
theorem find?_map_replace (l : List TeamState) (u : TeamState) (name : String)
    (hu : u.team_name = name)
    (h : (l.find? (fun v => v.team_name == name)).isSome) :
    (l.map (fun v => if v.team_name == u.team_name then u else v)).find?
      (fun v => v.team_name == name) = some u := by
  induction l with
  | nil => simp at h
  | cons a l ih =>
    by_cases ha : a.team_name = name
    · have hrep : (if (a.team_name == u.team_name) = true then u else a) = u := by
        rw [if_pos]; simp [ha, hu]
      simp only [List.map_cons, hrep]
      exact find?_cons_true _ _ _ (by simp [hu])
    · have ha' : ((fun v : TeamState => v.team_name == name) a) = false := by simpa using ha
      have hau : ¬ ((a.team_name == u.team_name) = true) := by
        simp only [beq_iff_eq, hu]; exact ha
      rw [find?_cons_false _ a _ ha'] at h
      simp only [List.map_cons, if_neg hau]
      rw [find?_cons_false _ a _ ha']
      exact ih h

/-- Replacing records keyed by a name other than `name` does not change the
first record keyed `name`. -/
theorem find?_map_replace_ne (l : List TeamState) (u : TeamState) (name : String)
    (hu : u.team_name ≠ name) :
    (l.map (fun v => if v.team_name == u.team_name then u else v)).find?
      (fun v => v.team_name == name) = l.find? (fun v => v.team_name == name) := by
  induction l with
  | nil => rfl
  | cons a l ih =>
    by_cases hau : (a.team_name == u.team_name) = true
    · have hau' : a.team_name = u.team_name := by simpa using hau
      have ha' : ((fun v : TeamState => v.team_name == name) a) = false := by
        simp only [beq_eq_false_iff_ne, ne_eq, hau']; exact hu
      have hu' : ((fun v : TeamState => v.team_name == name) u) = false := by simpa using hu
      simp only [List.map_cons, if_pos hau]
      rw [find?_cons_false _ u _ hu', find?_cons_false _ a _ ha']
      exact ih
    · simp only [List.map_cons, if_neg hau]
      by_cases ha : (a.team_name == name) = true
      · rw [find?_cons_true _ a _ ha, find?_cons_true _ a _ ha]
      · rw [find?_cons_false _ a _ (by simpa using ha), find?_cons_false _ a _ (by simpa using ha)]
        exact ih

/-- A `find?` hit survives appending. -/
theorem find?_append_some {α : Type} {l l₂ : List α} {p : α → Bool} {t : α}
    (h : l.find? p = some t) : (l ++ l₂).find? p = some t := by
  rw [List.find?_append, h]; rfl

/-- With no hit in the prefix, `find?` over an append searches the suffix. -/
theorem find?_append_none {α : Type} {l l₂ : List α} {p : α → Bool}
    (h : l.find? p = none) : (l ++ l₂).find? p = l₂.find? p := by
  rw [List.find?_append, h]; rfl

/-- Upserting a record keyed by a present name makes it the record returned
for that name. -/
theorem Store.get_upsert_self {s : Store} {u t : TeamState} {name : String}
    (h : s.get name = some t) (hu : u.team_name = name) :
    (s.upsert u).get name = some u := by
  have hmem : t ∈ s := Store.mem_of_get h
  have htn : t.team_name = name := Store.name_of_get h
  have hany : s.any (fun v => v.team_name == u.team_name) = true :=
    List.any_eq_true.mpr ⟨t, hmem, by simp [htn, hu]⟩
  unfold Store.upsert Store.get
  rw [if_pos hany]
  refine find?_map_replace s u name hu ?_
  unfold Store.get at h
  rw [h]; rfl

/-- Upserting a record keyed by a different name does not change what `get`
returns for `name`. -/
theorem Store.get_upsert_other {s : Store} {u : TeamState} {name : String}
    (hu : u.team_name ≠ name) :
    (s.upsert u).get name = s.get name := by
  unfold Store.upsert Store.get
  by_cases hany : s.any (fun v => v.team_name == u.team_name) = true
  · rw [if_pos hany]; exact find?_map_replace_ne s u name hu
  · rw [if_neg hany, List.find?_append]
    have hnone : List.find? (fun v => v.team_name == name) [u] = none := by
      have hu' : (u.team_name == name) = false := by simpa using hu
      simp [List.find?, hu']
    rw [hnone, Option.or_none]

/-- Upserting never removes a present name. -/
theorem Store.get_isSome_upsert {s : Store} {u : TeamState} {name : String}
    (h : (s.get name).isSome) : ((s.upsert u).get name).isSome := by
  by_cases hu : u.team_name = name
  · obtain ⟨t, ht⟩ := Option.isSome_iff_exists.mp h
    rw [Store.get_upsert_self ht hu]; rfl
  · rw [Store.get_upsert_other hu]; exact h

/-- Every member of an upserted store is an old member or the new record. -/
theorem Store.mem_upsert {s : Store} {u t' : TeamState} (h : t' ∈ s.upsert u) :
    t' ∈ s ∨ t' = u := by
  unfold Store.upsert at h
  split at h
  · obtain ⟨x, hx, hfx⟩ := List.mem_map.mp h
    by_cases hxn : (x.team_name == u.team_name) = true
    · right; rw [if_pos hxn] at hfx; exact hfx.symm
    · left; rw [if_neg hxn] at hfx; exact hfx ▸ hx
  · rcases List.mem_append.mp h with h | h
    · left; exact h
    · right; simpa using h

/-- Upserting a fresh name appends it. -/
theorem Store.upsert_of_get_none {s : Store} {u : TeamState}
    (h : s.get u.team_name = none) : s.upsert u = s ++ [u] := by
  unfold Store.upsert
  rw [if_neg]
  intro hany
  obtain ⟨x, hx, hpx⟩ := List.any_eq_true.mp hany
  unfold Store.get at h
  rw [List.find?_eq_none] at h
  exact h x hx hpx

/-- `/answer` never changes the team's name or owner. -/
theorem answer_frame (cfg : Config) (hav : Hav) (t : TeamState) (raw : String) :
    (answer cfg hav t raw).1.team_name = t.team_name ∧
    (answer cfg hav t raw).1.user_id = t.user_id := by
  unfold answer
  cases hq : get_q t.current_q with
  | none => exact ⟨rfl, rfl⟩
  | some q =>
    by_cases hg : geo_blocked cfg hav q t <;>
      by_cases hc : (pyUpper (pyStrip raw) == pyUpper q.answer_code) = true <;>
        by_cases hz : t.attempts_left - 1 ≤ 0 <;>
          simp [hg, hc, hz]

/-- `/hint` never changes the team's name or owner. -/
theorem hint_frame (t : TeamState) :
    (hint t).1.team_name = t.team_name ∧ (hint t).1.user_id = t.user_id := by
  unfold hint
  cases hq : get_q t.current_q with
  | none => exact ⟨rfl, rfl⟩
  | some q =>
    by_cases hh : (q.hints.length : Int) ≤ t.hints_used_current_q
    · simp [hh]
    · cases hp : pyIndex q.hints t.hints_used_current_q <;> simp [hh, hp]

/-- A freshly registered concrete team, used as witness input. -/
def wTeam : TeamState := TeamState.fresh cfg0 "Alpha" 7

/-- `wTeam` down to its last attempt. -/
def wTeam1 : TeamState := { wTeam with attempts_left := 1 }

/-- `wTeam` past the last challenge (the `Finished` state). -/
def wTeamFin : TeamState := { wTeam with current_q := 11 }

/-- C1: for a team on a current challenge with `1 ≤ index ≤ catalog length`,
submitting a code that case-insensitively equals the current challenge's
answer code awards exactly `max 0 (1 - hintsUsed * hintPenalty)` points onto
the score; with penalty `1/2`, zero hints award exactly `1` point and two
hints exactly `0`, and the awarded amount is never negative for any number
of hints used. -/
theorem C1_correct_award (cfg : Config) (hav : Hav) (t : TeamState) (raw : String)
    (q : Question) (_h1 : 1 ≤ t.current_q) (_h2 : t.current_q ≤ (QUESTIONS.length : Int))
    (hq : get_q t.current_q = some q)
    (hgeo : geo_blocked cfg hav q t = false)
    (hcode : pyUpper (pyStrip raw) = pyUpper q.answer_code) :
    (answer cfg hav t raw).1.score =
        t.score + max 0 (1 - (t.hints_used_current_q : Rat) * cfg.hintPenalty) ∧
    (answer cfg hav t raw).2 =
        .correct (max 0 (1 - (t.hints_used_current_q : Rat) * cfg.hintPenalty))
          (decide ((QUESTIONS.length : Int) < t.current_q + 1)) ∧
    (cfg.hintPenalty = 1/2 → t.hints_used_current_q = 0 →
        (answer cfg hav t raw).1.score = t.score + 1) ∧
    (cfg.hintPenalty = 1/2 → t.hints_used_current_q = 2 →
        (answer cfg hav t raw).1.score = t.score) ∧
    t.score ≤ (answer cfg hav t raw).1.score := by
  have hc : (pyUpper (pyStrip raw) == pyUpper q.answer_code) = true := by simp [hcode]
  have hans : answer cfg hav t raw =
      ({ t with
          score := t.score + max 0 (1 - (t.hints_used_current_q : Rat) * cfg.hintPenalty)
          history := t.history ++
            [{ q := t.current_q, correct := true,
               points := max 0 (1 - (t.hints_used_current_q : Rat) * cfg.hintPenalty),
               attempts := cfg.attemptsPerQ - t.attempts_left + 1,
               hints := t.hints_used_current_q }]
          current_q := t.current_q + 1
          attempts_left := cfg.attemptsPerQ
          hints_used_current_q := 0 },
       .correct (max 0 (1 - (t.hints_used_current_q : Rat) * cfg.hintPenalty))
         (decide ((QUESTIONS.length : Int) < t.current_q + 1))) := by
    simp [answer, hq, hgeo, hc]
  rw [hans]
  refine ⟨rfl, rfl, ?_, ?_, ?_⟩
  · intro hp h0
    rw [h0, hp]
    norm_num
  · intro hp hh
    rw [hh, hp]
    norm_num
  · exact le_add_of_nonneg_right (le_max_left 0 _)

/-- Witness for C1 at the default configuration: the fresh team `wTeam`
answering challenge 1 with a lowercase copy of its answer code is awarded a
full point. -/
theorem C1_correct_award_witness :
    get_q wTeam.current_q = some question1 ∧
    (answer cfg0 hav0 wTeam "merlion").1.score =
      wTeam.score + max 0 (1 - (wTeam.hints_used_current_q : Rat) * cfg0.hintPenalty) :=
  ⟨by decide,
   (C1_correct_award cfg0 hav0 wTeam "merlion" question1 (by decide) (by decide)
     (by decide) (by decide) (by decide)).1⟩

/-- C2: a team on a current challenge with exactly one attempt remaining that
submits a wrong code gets exactly one `correct=false` history entry with
zero points, `attempts = budget` and `hints = hintsUsedThisChallenge`, its
index advanced by exactly 1, attempts reset to the budget and hints reset
to 0 (the auto-advance after `budget` consecutive wrong answers). -/
theorem C2_exhausted_advance (cfg : Config) (hav : Hav) (t : TeamState) (raw : String)
    (q : Question) (_h1 : 1 ≤ t.current_q) (_h2 : t.current_q ≤ (QUESTIONS.length : Int))
    (hq : get_q t.current_q = some q)
    (hgeo : geo_blocked cfg hav q t = false)
    (hcode : pyUpper (pyStrip raw) ≠ pyUpper q.answer_code)
    (hatt : t.attempts_left = 1) :
    (answer cfg hav t raw).1 =
      { t with
          history := t.history ++
            [{ q := t.current_q, correct := false, points := 0,
               attempts := cfg.attemptsPerQ,
               hints := t.hints_used_current_q }]
          current_q := t.current_q + 1
          attempts_left := cfg.attemptsPerQ
          hints_used_current_q := 0 } ∧
    ((answer cfg hav t raw).2 = .exhaustedAdvance ∨
     (answer cfg hav t raw).2 = .exhaustedGameOver) := by
  have hc : (pyUpper (pyStrip raw) == pyUpper q.answer_code) = false := by
    simpa using hcode
  have hz : t.attempts_left - 1 ≤ 0 := by omega
  constructor
  · simp [answer, hq, hgeo, hc, hz]
  · by_cases hfin : t.current_q + 1 ≤ (QUESTIONS.length : Int)
    · left; simp [answer, hq, hgeo, hc, hz, hfin]
    · right; simp [answer, hq, hgeo, hc, hz, hfin]

/-- Witness for C2: `wTeam1` (one attempt left on challenge 1) submits a
wrong code and auto-advances with a false history entry. -/
theorem C2_exhausted_advance_witness :
    wTeam1.attempts_left = 1 ∧
    (answer cfg0 hav0 wTeam1 "NOPE").1 =
      { wTeam1 with
          history := wTeam1.history ++
            [{ q := wTeam1.current_q, correct := false, points := 0,
               attempts := cfg0.attemptsPerQ,
               hints := wTeam1.hints_used_current_q }]
          current_q := wTeam1.current_q + 1
          attempts_left := cfg0.attemptsPerQ
          hints_used_current_q := 0 } :=
  ⟨by decide,
   (C2_exhausted_advance cfg0 hav0 wTeam1 "NOPE" question1 (by decide) (by decide)
     (by decide) (by decide) (by decide) (by decide)).1⟩

/-- C4: a team whose index exceeds the catalog length (`Finished`) has every
answer submission fail (the handler dies in `get_q` before any mutation, the
failure the spec's taxonomy calls `AlreadyFinished`) with the team record
unchanged. -/
theorem C4_finished_rejected (cfg : Config) (hav : Hav) (t : TeamState) (raw : String)
    (h : (QUESTIONS.length : Int) < t.current_q) :
    answer cfg hav t raw = (t, .noQuestion) := by
  simp [answer, get_q_none h]

/-- Witness for C4: `wTeamFin` (index 11 of 10) submitting even the real
answer code of challenge 1 fails with no state change. -/
theorem C4_finished_rejected_witness :
    (QUESTIONS.length : Int) < wTeamFin.current_q ∧
    answer cfg0 hav0 wTeamFin "MERLION" = (wTeamFin, .noQuestion) :=
  ⟨by decide, C4_finished_rejected cfg0 hav0 wTeamFin "MERLION" (by decide)⟩

/-- The default configuration with geofencing switched on. -/
def cfgG : Config := { cfg0 with useGeofence := true }

/-- A haversine stand-in that rejects everything. -/
def havNo : Hav := fun _ _ _ => false

/-- `wTeam` with a recorded location. -/
def wTeamLoc : TeamState := { wTeam with last_location := some ⟨0, 0, 0⟩ }

/-- `wTeam` having already used both hints of challenge 1. -/
def wTeamMaxH : TeamState := { wTeam with hints_used_current_q := 2 }

/-- C6: for a team in progress, if the team has a recorded location that the
proximity check rejects for the current challenge, `/answer` is rejected
with the out-of-range reply and the record is completely unchanged,
whatever code was submitted; and if no location is on record, the proximity
predicate is never consulted (the outcome does not depend on it at all) and
a correct code is accepted. -/
theorem C6_geofence_gate (cfg : Config) (t : TeamState) (raw : String) :
    (∀ (hav : Hav) (q : Question) (loc : Location),
        get_q t.current_q = some q → t.last_location = some loc →
        within_geofence cfg hav q loc.lat loc.lon = false →
        answer cfg hav t raw = (t, .outOfRange)) ∧
    (t.last_location = none →
      (∀ hav hav' : Hav, answer cfg hav t raw = answer cfg hav' t raw) ∧
      (∀ (hav : Hav) (q : Question), get_q t.current_q = some q →
          pyUpper (pyStrip raw) = pyUpper q.answer_code →
          ((answer cfg hav t raw).2).isCorrect = true)) := by
  refine ⟨?_, ?_⟩
  · intro hav q loc hq hloc hw
    have hb : geo_blocked cfg hav q t = true := by
      simp [geo_blocked, hloc, hw]
    simp [answer, hq, hb]
  · intro hnone
    have hb : ∀ (hav : Hav) (q : Question), geo_blocked cfg hav q t = false := by
      intro hav q
      unfold geo_blocked
      rw [hnone]
    constructor
    · intro hav hav'
      unfold answer
      cases hq : get_q t.current_q with
      | none => rfl
      | some q => simp [hb]
    · intro hav q hq hcode
      have hc : (pyUpper (pyStrip raw) == pyUpper q.answer_code) = true := by simp [hcode]
      simp [answer, hq, hb, hc, AnswerResult.isCorrect]

/-- Witness for C6: with geofencing on, a rejecting proximity check bounces
even the correct code with no state change; without a recorded location the
correct code is accepted under the same configuration. -/
theorem C6_geofence_gate_witness :
    answer cfgG havNo wTeamLoc "MERLION" = (wTeamLoc, .outOfRange) ∧
    ((answer cfgG havNo wTeam "merlion").2).isCorrect = true :=
  ⟨(C6_geofence_gate cfgG wTeamLoc "MERLION").1 havNo question1 ⟨0, 0, 0⟩
     (by decide) (by decide) (by decide),
   ((C6_geofence_gate cfgG wTeam "merlion").2 (by decide)).2 havNo question1
     (by decide) (by decide)⟩

/-- C7: `/hint` fails, leaving every field unchanged, when the team is past
the catalog (`Finished`, the handler dying in `get_q`) or when
`hintsUsedThisChallenge` already equals the current challenge's hint count;
otherwise it increments `hintsUsedThisChallenge` by exactly 1 and returns
the hint at 0-based position `hintsUsedThisChallenge - 1` (its value before
the increment), so hints are revealed front-to-back in order. -/
theorem C7_hint_rules (t : TeamState) :
    ((QUESTIONS.length : Int) < t.current_q → hint t = (t, .noQuestion)) ∧
    (∀ q : Question, get_q t.current_q = some q →
      ((t.hints_used_current_q = (q.hints.length : Int) → hint t = (t, .noMoreHints)) ∧
       (0 ≤ t.hints_used_current_q → t.hints_used_current_q < (q.hints.length : Int) →
         ∃ s : String,
           q.hints.get? t.hints_used_current_q.toNat = some s ∧
           hint t = ({ t with hints_used_current_q := t.hints_used_current_q + 1 },
                     .granted s)))) := by
  constructor
  · intro h
    simp [hint, get_q_none h]
  · intro q hq
    constructor
    · intro heq
      have hge : (q.hints.length : Int) ≤ t.hints_used_current_q := le_of_eq heq.symm
      simp [hint, hq, hge]
    · intro h0 hlt
      have hnat : t.hints_used_current_q.toNat < q.hints.length := by omega
      have hsome := List.get?_eq_get hnat
      refine ⟨q.hints.get ⟨t.hints_used_current_q.toNat, hnat⟩, hsome, ?_⟩
      have hnle : ¬ ((q.hints.length : Int) ≤ t.hints_used_current_q) := by omega
      have hpy : pyIndex q.hints t.hints_used_current_q =
          some (q.hints.get ⟨t.hints_used_current_q.toNat, hnat⟩) := by
        simp [pyIndex, not_lt.mpr h0, h0, hsome]
      simp [hint, hq, hnle, hpy]

/-- Witness for C7: the finished team's hint request fails; a team that used
both hints of challenge 1 gets no more; the fresh team gets hint 1 and its
counter moves to 1. -/
theorem C7_hint_rules_witness :
    hint wTeamFin = (wTeamFin, .noQuestion) ∧
    hint wTeamMaxH = (wTeamMaxH, .noMoreHints) ∧
    hint wTeam = ({ wTeam with
                     hints_used_current_q := wTeam.hints_used_current_q + 1 },
                  .granted "It is near the steps facing the Padang.") := by
  refine ⟨(C7_hint_rules wTeamFin).1 (by decide),
    ((C7_hint_rules wTeamMaxH).2 question1 (by decide)).1 (by decide), ?_⟩
  obtain ⟨s, hs, hh⟩ :=
    ((C7_hint_rules wTeam).2 question1 (by decide)).2 (by decide) (by decide)
  have hx : question1.hints.get? wTeam.hints_used_current_q.toNat =
      some "It is near the steps facing the Padang." := by decide
  rw [hx] at hs
  rw [(Option.some.inj hs).symm] at hh
  exact hh

/-- C8: the admin force on an existing team sets `current_q` to the target
clamped into `[1, len(QUESTIONS)]`, resets `attempts_left` to the budget and
`hints_used_current_q` to 0, and leaves history, score, name, owner and last
location untouched. -/
theorem C8_force_clamps (cfg : Config) (s : Store) (name : String) (qn : Int)
    (t : TeamState) (ht : s.get name = some t) :
    (force cfg s name qn).1.get name = some { t with
        current_q := max 1 (min qn (QUESTIONS.length : Int))
        attempts_left := cfg.attemptsPerQ
        hints_used_current_q := 0 } ∧
    (force cfg s name qn).2 = .forced (max 1 (min qn (QUESTIONS.length : Int))) := by
  have htn : t.team_name = name := Store.name_of_get ht
  have hf : force cfg s name qn =
      (s.upsert { t with
        current_q := max 1 (min qn (QUESTIONS.length : Int))
        attempts_left := cfg.attemptsPerQ
        hints_used_current_q := 0 },
       .forced (max 1 (min qn (QUESTIONS.length : Int)))) := by
    simp [force, ht]
  rw [hf]
  exact ⟨Store.get_upsert_self ht htn, rfl⟩

/-- Witness for C8: forcing the sole team of a one-team store to question 42
clamps it to 10 and keeps its history and score (the stored record is the old
one with only index, attempts and hints overwritten). -/
theorem C8_force_clamps_witness :
    Store.get [wTeam] "Alpha" = some wTeam ∧
    (force cfg0 [wTeam] "Alpha" 42).1.get "Alpha" = some { wTeam with
        current_q := max 1 (min 42 (QUESTIONS.length : Int))
        attempts_left := cfg0.attemptsPerQ
        hints_used_current_q := 0 } :=
  ⟨by decide, (C8_force_clamps cfg0 [wTeam] "Alpha" 42 wTeam (by decide)).1⟩

/-- A team on challenge 5 with score 2. -/
def teamHigh : TeamState := ⟨"HIGH", 1, 5, 2, 3, 0, [], none⟩

/-- A team on challenge 2 with the same score 2. -/
def teamLow : TeamState := ⟨"LOW", 2, 2, 2, 3, 0, [], none⟩

/-- C3 counterexample: two teams with equal scores, one on challenge 5 and
one on challenge 2.  The claim says the team with the higher challenge index
ranks strictly earlier; the code (`key=lambda t: (-t.score, t.current_q)`)
sorts the tied teams by index ascending and puts the *lower*-index team
first. -/
theorem C3_rank_counterexample :
    teamHigh.score = teamLow.score ∧
    teamLow.current_q < teamHigh.current_q ∧
    scoreboard [teamHigh, teamLow] = [teamLow, teamHigh] := by
  decide

/-- C3 amended: the scoreboard is a pure permutation of the store snapshot
sorted by score descending (primary) and current challenge index *ascending*
(secondary): on equal scores the team with the lower index ranks earlier. -/
theorem C3_scoreboard_order (s : Store) :
    List.Perm (scoreboard s) s ∧
    List.Sorted sbLE (scoreboard s) ∧
    (∀ a b : TeamState, sbLE a b ↔
        (b.score < a.score ∨ (b.score = a.score ∧ a.current_q ≤ b.current_q))) := by
  refine ⟨List.perm_insertionSort sbLE s, List.sorted_insertionSort sbLE s, ?_⟩
  intro a b
  unfold sbLE
  constructor
  · rintro (h | ⟨h, h'⟩)
    · exact Or.inl (by linarith)
    · exact Or.inr ⟨by linarith, h'⟩
  · rintro (h | ⟨h, h'⟩)
    · exact Or.inl (by linarith)
    · exact Or.inr ⟨by linarith, h'⟩

/-- The bookkeeping invariant of claim 5: one history entry per resolved
challenge. -/
def histInv (t : TeamState) : Prop :=
  (t.history.length : Int) = t.current_q - 1

/-- `/answer` preserves the history-per-challenge invariant: both resolution
paths append exactly one entry while advancing the index by one, and every
other path touches neither. -/
theorem histInv_answer (cfg : Config) (hav : Hav) (t : TeamState) (raw : String)
    (h : histInv t) : histInv (answer cfg hav t raw).1 := by
  unfold histInv at *
  unfold answer
  cases hq : get_q t.current_q with
  | none => simpa using h
  | some q =>
    by_cases hg : geo_blocked cfg hav q t
    · simpa [hg] using h
    · by_cases hc : (pyUpper (pyStrip raw) == pyUpper q.answer_code) = true
      · simp [hg, hc]
        omega
      · by_cases hz : t.attempts_left - 1 ≤ 0
        · simp [hg, hc, hz]
          omega
        · simpa [hg, hc, hz] using h

/-- `/hint` preserves the invariant (it never touches history or index). -/
theorem histInv_hint (t : TeamState) (h : histInv t) : histInv (hint t).1 := by
  unfold histInv at *
  unfold hint
  cases hq : get_q t.current_q with
  | none => simpa using h
  | some q =>
    by_cases hh : (q.hints.length : Int) ≤ t.hints_used_current_q
    · simpa [hh] using h
    · cases hp : pyIndex q.hints t.hints_used_current_q <;> simpa [hh, hp] using h

/-- A location update preserves the invariant. -/
theorem histInv_on_location (t : TeamState) (loc : Location) (h : histInv t) :
    histInv (on_location t loc) := by
  simpa [histInv, on_location] using h

/-- A freshly registered record satisfies the invariant. -/
theorem histInv_fresh (cfg : Config) (name : String) (uid : Int) :
    histInv (TeamState.fresh cfg name uid) := by
  simp [histInv, TeamState.fresh]

/-- Every non-`/force` dispatch round preserves the invariant across the
whole store. -/
theorem histInv_step (cfg : Config) (hav : Hav) (s : Store) (e : Event)
    (hs : ∀ t ∈ s, histInv t) (he : e.isForce = false) :
    ∀ t ∈ step cfg hav s e, histInv t := by
  cases e with
  | registerE raw uid =>
    intro t ht
    cases hg : Store.get s (pyStrip raw) with
    | some u =>
      simp only [step, register, hg] at ht
      exact hs t ht
    | none =>
      simp only [step, register, hg] at ht
      rcases Store.mem_upsert ht with hmem | rfl
      · exact hs t hmem
      · exact histInv_fresh cfg (pyStrip raw) uid
  | answerE uid raw =>
    intro t ht
    cases hr : require_team s uid with
    | none =>
      simp only [step, hr] at ht
      exact hs t ht
    | some t0 =>
      simp only [step, hr] at ht
      rcases Store.mem_upsert ht with hmem | rfl
      · exact hs t hmem
      · exact histInv_answer cfg hav t0 raw (hs t0 (List.mem_of_find?_eq_some hr))
  | hintE uid =>
    intro t ht
    cases hr : require_team s uid with
    | none =>
      simp only [step, hr] at ht
      exact hs t ht
    | some t0 =>
      simp only [step, hr] at ht
      rcases Store.mem_upsert ht with hmem | rfl
      · exact hs t hmem
      · exact histInv_hint t0 (hs t0 (List.mem_of_find?_eq_some hr))
  | locE uid loc =>
    intro t ht
    cases hr : require_team s uid with
    | none =>
      simp only [step, hr] at ht
      exact hs t ht
    | some t0 =>
      simp only [step, hr] at ht
      rcases Store.mem_upsert ht with hmem | rfl
      · exact hs t hmem
      · exact histInv_on_location t0 loc (hs t0 (List.mem_of_find?_eq_some hr))
  | forceE nm qn =>
    simp [Event.isForce] at he

/-- The invariant holds in every store reachable from a start store that
satisfies it by force-free events. -/
theorem histInv_foldl (cfg : Config) (hav : Hav) (es : List Event) :
    ∀ s : Store, (∀ t ∈ s, histInv t) → (∀ e ∈ es, e.isForce = false) →
      ∀ t ∈ es.foldl (step cfg hav) s, histInv t := by
  induction es with
  | nil =>
    intro s hs _ t ht
    exact hs t ht
  | cons e es ih =>
    intro s hs hes t ht
    exact ih (step cfg hav s e)
      (histInv_step cfg hav s e hs (hes e (List.mem_cons_self e es)))
      (fun f hf => hes f (List.mem_cons_of_mem e hf)) t ht

/-- C5 counterexample: the claim quantifies over all transitions including
`ForceSetIndex`, but `/force` rewrites the index without touching history.
After registering and forcing to question 3, the reachable record has an
empty history and index 3, violating `len(history) = current_q - 1`. -/
theorem C5_history_counterexample :
    (runEvents cfg0 hav0 [Event.registerE "A" 1, Event.forceE "A" 3]).get "A" =
      some ⟨"A", 1, 3, 0, 3, 0, [], none⟩ ∧
    ¬ (∀ t ∈ runEvents cfg0 hav0 [Event.registerE "A" 1, Event.forceE "A" 3],
        (t.history.length : Int) = t.current_q - 1) := by
  decide

/-- C5 amended: over every sequence of transitions *other than
`ForceSetIndex`* (register, answer, hint, location) starting from the empty
store, every reachable record satisfies `len(history) = current_q - 1`;
`/force` is the one transition that can break the equation. -/
theorem C5_history_invariant (cfg : Config) (hav : Hav) (es : List Event)
    (hnf : ∀ e ∈ es, e.isForce = false) :
    ∀ t ∈ runEvents cfg hav es, (t.history.length : Int) = t.current_q - 1 :=
  histInv_foldl cfg hav es [] (by intro t ht; cases ht) hnf

/-- Witness for C5 (amended): after a register and a correct answer, the
sole record satisfies the invariant. -/
theorem C5_history_invariant_witness :
    ((TeamState.fresh cfg0 (pyStrip "Alpha") 7).history.length : Int) =
      (TeamState.fresh cfg0 (pyStrip "Alpha") 7).current_q - 1 :=
  C5_history_invariant cfg0 hav0 [Event.registerE "Alpha" 7] (by decide)
    (TeamState.fresh cfg0 (pyStrip "Alpha") 7) (by decide)

/-- No dispatch round ever removes a registered name from the store: every
handler either leaves the store alone or upserts a record. -/
theorem get_isSome_step (cfg : Config) (hav : Hav) (s : Store) (e : Event)
    (name : String) (h : (s.get name).isSome = true) :
    ((step cfg hav s e).get name).isSome = true := by
  cases e with
  | registerE raw uid =>
    cases hg : Store.get s (pyStrip raw) with
    | some u => simpa only [step, register, hg] using h
    | none =>
      simp only [step, register, hg]
      exact Store.get_isSome_upsert h
  | answerE uid raw =>
    cases hr : require_team s uid with
    | none => simpa only [step, hr] using h
    | some t0 =>
      simp only [step, hr]
      exact Store.get_isSome_upsert h
  | hintE uid =>
    cases hr : require_team s uid with
    | none => simpa only [step, hr] using h
    | some t0 =>
      simp only [step, hr]
      exact Store.get_isSome_upsert h
  | locE uid loc =>
    cases hr : require_team s uid with
    | none => simpa only [step, hr] using h
    | some t0 =>
      simp only [step, hr]
      exact Store.get_isSome_upsert h
  | forceE nm qn =>
    cases hg : Store.get s nm with
    | none => simpa only [step, force, hg] using h
    | some t0 =>
      simp only [step, force, hg]
      exact Store.get_isSome_upsert h

/-- A registered name stays present across any sequence of dispatch rounds. -/
theorem get_isSome_run (cfg : Config) (hav : Hav) (es : List Event) :
    ∀ (s : Store) (name : String), (s.get name).isSome = true →
      ((es.foldl (step cfg hav) s).get name).isSome = true := by
  induction es with
  | nil =>
    intro s name h
    exact h
  | cons e es ih =>
    intro s name h
    exact ih (step cfg hav s e) name (get_isSome_step cfg hav s e name h)

/-- C9: registration is first-write-wins.  A taken name makes `/register`
fail with the name-taken reply and leave the store (hence the existing
record and its owner) completely unchanged; a registered name can never
disappear, so no later `/register` of it by any owner can ever succeed; and
registering a free name appends a fresh record with index 1, score 0, the
full attempt budget and zero hints used. -/
theorem C9_first_write_wins (cfg : Config) :
    (∀ (s : Store) (raw : String) (uid : Int) (t : TeamState),
        s.get (pyStrip raw) = some t → register cfg s raw uid = (s, .nameTaken)) ∧
    (∀ (hav : Hav) (es : List Event) (s : Store) (name : String),
        (s.get name).isSome = true →
        ((es.foldl (step cfg hav) s).get name).isSome = true) ∧
    (∀ (s : Store) (raw : String) (uid : Int),
        s.get (pyStrip raw) = none →
        register cfg s raw uid =
          (s ++ [TeamState.fresh cfg (pyStrip raw) uid],
           .registered (TeamState.fresh cfg (pyStrip raw) uid)) ∧
        (TeamState.fresh cfg (pyStrip raw) uid).current_q = 1 ∧
        (TeamState.fresh cfg (pyStrip raw) uid).score = 0 ∧
        (TeamState.fresh cfg (pyStrip raw) uid).attempts_left = cfg.attemptsPerQ ∧
        (TeamState.fresh cfg (pyStrip raw) uid).hints_used_current_q = 0) := by
  refine ⟨?_, ?_, ?_⟩
  · intro s raw uid t h
    simp [register, h]
  · intro hav es s name h
    exact get_isSome_run cfg hav es s name h
  · intro s raw uid h
    refine ⟨?_, rfl, rfl, rfl, rfl⟩
    have hup : s.upsert (TeamState.fresh cfg (pyStrip raw) uid) =
        s ++ [TeamState.fresh cfg (pyStrip raw) uid] :=
      Store.upsert_of_get_none h
    simp [register, h, hup]

/-- Witness for C9: re-registering "Alpha" (taken by `wTeam`'s owner 7) from
owner 9 fails and changes nothing; "Alpha" survives a forced update; a free
name "Beta" registers fresh. -/
theorem C9_first_write_wins_witness :
    register cfg0 [wTeam] "Alpha" 9 = ([wTeam], .nameTaken) ∧
    ((([Event.forceE "Alpha" 3].foldl (step cfg0 hav0) [wTeam]).get "Alpha").isSome
      = true) ∧
    register cfg0 [] "Beta" 9 =
      ([TeamState.fresh cfg0 (pyStrip "Beta") 9],
       .registered (TeamState.fresh cfg0 (pyStrip "Beta") 9)) :=
  ⟨(C9_first_write_wins cfg0).1 [wTeam] "Alpha" 9 wTeam (by decide),
   (C9_first_write_wins cfg0).2.1 hav0 [Event.forceE "Alpha" 3] [wTeam] "Alpha"
     (by decide),
   (((C9_first_write_wins cfg0).2.2 [] "Beta" 9 (by decide))).1⟩

/-- C10: `/register` never checks owner uniqueness - an owner who already
owns a team can register a second team under a free name - and owner-keyed
commands resolve through `_require_team`, the first record in insertion
order with that owner id, so the newly registered second team is shadowed:
answer/hint/location dispatched by that owner all act on the first team and
the second team's record stays untouched. -/
theorem C10_owner_scan_shadowing (cfg : Config) (hav : Hav) (s : Store)
    (raw2 : String) (uid : Int) (t1 : TeamState)
    (hown : require_team s uid = some t1)
    (hfree : s.get (pyStrip raw2) = none) :
    register cfg s raw2 uid =
      (s ++ [TeamState.fresh cfg (pyStrip raw2) uid],
       .registered (TeamState.fresh cfg (pyStrip raw2) uid)) ∧
    require_team (register cfg s raw2 uid).1 uid = some t1 ∧
    (register cfg s raw2 uid).1.get (pyStrip raw2) =
      some (TeamState.fresh cfg (pyStrip raw2) uid) ∧
    t1.team_name ≠ pyStrip raw2 ∧
    (∀ raw : String,
       step cfg hav (register cfg s raw2 uid).1 (.answerE uid raw) =
         (register cfg s raw2 uid).1.upsert (answer cfg hav t1 raw).1) ∧
    step cfg hav (register cfg s raw2 uid).1 (.hintE uid) =
      (register cfg s raw2 uid).1.upsert (hint t1).1 ∧
    (∀ loc : Location,
       step cfg hav (register cfg s raw2 uid).1 (.locE uid loc) =
         (register cfg s raw2 uid).1.upsert (on_location t1 loc)) ∧
    (∀ raw : String,
       (step cfg hav (register cfg s raw2 uid).1 (.answerE uid raw)).get (pyStrip raw2) =
         some (TeamState.fresh cfg (pyStrip raw2) uid)) := by
  have hup : s.upsert (TeamState.fresh cfg (pyStrip raw2) uid) =
      s ++ [TeamState.fresh cfg (pyStrip raw2) uid] :=
    Store.upsert_of_get_none hfree
  have hreg : register cfg s raw2 uid =
      (s ++ [TeamState.fresh cfg (pyStrip raw2) uid],
       .registered (TeamState.fresh cfg (pyStrip raw2) uid)) := by
    simp [register, hfree, hup]
  have hreg1 : (register cfg s raw2 uid).1 =
      s ++ [TeamState.fresh cfg (pyStrip raw2) uid] := by
    rw [hreg]
  have hreq : require_team (s ++ [TeamState.fresh cfg (pyStrip raw2) uid]) uid =
      some t1 := find?_append_some hown
  have hget2 : Store.get (s ++ [TeamState.fresh cfg (pyStrip raw2) uid]) (pyStrip raw2) =
      some (TeamState.fresh cfg (pyStrip raw2) uid) := by
    unfold Store.get at hfree ⊢
    rw [find?_append_none hfree]
    exact find?_cons_true _ _ _ (by simp [TeamState.fresh])
  have hne : t1.team_name ≠ pyStrip raw2 := by
    intro hEq
    have hmem := List.mem_of_find?_eq_some hown
    unfold Store.get at hfree
    rw [List.find?_eq_none] at hfree
    exact hfree t1 hmem (by simp [hEq])
  refine ⟨hreg, ?_, ?_, hne, ?_, ?_, ?_, ?_⟩
  · rw [hreg1]
    exact hreq
  · rw [hreg1]
    exact hget2
  · intro raw
    rw [hreg1]
    simp only [step, hreq]
  · rw [hreg1]
    simp only [step, hreq]
  · intro loc
    rw [hreg1]
    simp only [step, hreq]
  · intro raw
    rw [hreg1]
    simp only [step, hreq]
    have hx : ((answer cfg hav t1 raw).1).team_name ≠ pyStrip raw2 := by
      rw [(answer_frame cfg hav t1 raw).1]
      exact hne
    rw [Store.get_upsert_other hx]
    exact hget2

/-- Witness for C10: owner 7 (who owns "Alpha") registers "Beta"; owner-keyed
resolution still returns the "Alpha" record, and an `/answer` dispatched by
owner 7 leaves the "Beta" record untouched. -/
theorem C10_owner_scan_shadowing_witness :
    require_team (register cfg0 [wTeam] "Beta" 7).1 7 = some wTeam ∧
    (register cfg0 [wTeam] "Beta" 7).1.get (pyStrip "Beta") =
      some (TeamState.fresh cfg0 (pyStrip "Beta") 7) ∧
    wTeam.team_name ≠ pyStrip "Beta" ∧
    (step cfg0 hav0 (register cfg0 [wTeam] "Beta" 7).1 (.answerE 7 "merlion")).get
        (pyStrip "Beta") = some (TeamState.fresh cfg0 (pyStrip "Beta") 7) := by
  have h := C10_owner_scan_shadowing cfg0 hav0 [wTeam] "Beta" 7 wTeam
    (by decide) (by decide)
  exact ⟨h.2.1, h.2.2.1, h.2.2.2.1, h.2.2.2.2.2.2.2 "merlion"⟩
